import Mathlib

/-!
Verification development for the paper-search subsystem of the
`auto-research` repository (`gscientist/tools/builtins/paper_search`).

Shallow embedding conventions:
* Python strings are modelled as `PyStr := List Char`.
* `datetime` values are modelled as day/second counts (`Nat`); the outcome of a
  `datetime.strptime` call on a raw feed field is modelled as an `Option Nat`
  (`none` = the call raised `ValueError`/`TypeError`).
* Network I/O (`requests` + `feedparser`) is abstracted as an oracle mapping a
  `(start index, requested batch size)` pair to the list of raw feed entries,
  or `none` when the fetch raised after exhausting its retries.
* Python exceptions are modelled with `Except`: a function body that can raise
  is given as a `...Core` definition returning `Except`, and the `try/except`
  wrapper in the source is the corresponding total function.
-/

abbrev PyStr := List Char

/-- Python `str.strip()` whitespace predicate (ASCII whitespace). -/
def pyIsSpace (c : Char) : Bool :=
  c = ' ' || c = '\t' || c = '\n' || c = '\r' || c = '\x0b' || c = '\x0c'

/-- Python `s.strip()`. -/
def pyStrip (s : PyStr) : PyStr :=
  ((s.dropWhile pyIsSpace).reverse.dropWhile pyIsSpace).reverse

/-- Python `s.replace('\n', ' ')` as used on titles/abstracts. -/
def replaceNewlines (s : PyStr) : PyStr :=
  s.map (fun c => if c = '\n' then ' ' else c)

/-- Python `s.lower()` (ASCII). -/
def pyLower (s : PyStr) : PyStr := s.map Char.toLower

/-- The separator `'; '` used by `Paper.to_dict` for list-valued fields. -/
def sepSC : PyStr := [';', ' ']

/-- Python `'; '.join(l)`. -/
def joinSep (l : List PyStr) : PyStr := List.intercalate sepSC l

/-- Locate the first occurrence of `sep` in `s`, returning the part before it
and the part after it (the semantics of the scan in Python's `str.split`). -/
def splitFirst (sep : PyStr) : PyStr → Option (PyStr × PyStr)
  | [] => none
  | c :: rest =>
    if sep.isPrefixOf (c :: rest) then some ([], (c :: rest).drop sep.length)
    else (splitFirst sep rest).map (fun p => (c :: p.1, p.2))

/-- Fuel-driven worker for `splitOnSep`. -/
def splitGo (sep : PyStr) : Nat → PyStr → List PyStr
  | 0, s => [s]
  | fuel + 1, s =>
    match splitFirst sep s with
    | none => [s]
    | some p => p.1 :: splitGo sep fuel p.2

/-- Python `s.split(sep)` for a nonempty separator: in particular
`''.split('; ') = ['']`. -/
def splitOnSep (sep s : PyStr) : List PyStr := splitGo sep (s.length + 1) s

/-! ## Record model (`Paper` dataclass, arxiv.py lines 23-60) -/

/-- The `Paper` dataclass.  `published_date`/`updated_date` are `Option`
because the Python dataclass does not enforce the annotation and the engine
explicitly tests `r.published_date is not None`.  `extra` is a key/value bag;
its `str()` rendering used by `to_dict` is abstracted by `extraCell` below. -/
structure Paper where
  paper_id : PyStr
  title : PyStr
  authors : List PyStr
  abstract : PyStr
  url : PyStr
  pdf_url : PyStr
  published_date : Option Nat
  updated_date : Option Nat
  source : PyStr
  categories : List PyStr
  keywords : List PyStr
  doi : PyStr
  citations : Nat := 0
  references : List PyStr := []
  extra : List (PyStr × PyStr) := []
deriving DecidableEq, Repr

/-- Abstraction of `str(self.extra)` for a nonempty dict: an injective textual
rendering of the key/value pairs (the exact Python `repr` formatting is not
load-bearing for any claim). -/
def reprPairs (l : List (PyStr × PyStr)) : PyStr :=
  List.intercalate [',', ' '] (l.map (fun kv => kv.1 ++ [':', ' '] ++ kv.2))

/-- The flat row produced by `Paper.to_dict` (one CSV cell per field; the
date/citation cells keep their values, which the tabular writer renders). -/
structure PaperRow where
  paper_id : PyStr
  title : PyStr
  authors : PyStr
  abstract : PyStr
  url : PyStr
  pdf_url : PyStr
  published_date : Option Nat
  updated_date : Option Nat
  source : PyStr
  categories : PyStr
  keywords : PyStr
  doi : PyStr
  citations : Nat
  references : PyStr
  extra : PyStr
deriving DecidableEq, Repr

/-- `Paper.to_dict` (arxiv.py lines 42-60). -/
def toDict (p : Paper) : PaperRow where
  paper_id := p.paper_id
  title := p.title
  authors := joinSep p.authors
  abstract := p.abstract
  url := p.url
  pdf_url := p.pdf_url
  published_date := p.published_date
  updated_date := p.updated_date
  source := p.source
  categories := joinSep p.categories
  keywords := if p.keywords.isEmpty then [] else joinSep p.keywords
  doi := p.doi
  citations := p.citations
  references := if p.references.isEmpty then [] else joinSep p.references
  extra := if p.extra.isEmpty then [] else reprPairs p.extra

/-! ## Arxiv entry parser (`_parse_entry`, arxiv.py lines 265-315) -/

/-- A raw feedparser entry.  Library-call outcomes are pre-modelled:
`published`/`updated` hold the `strptime` result of the corresponding raw
string (`none` = `ValueError`/`TypeError`); `raises` models an entry whose
attribute accesses raise (e.g. a non-dict element inside `authors`, reaching
the outer `except`). -/
structure RawEntry where
  raises : Bool
  authorsNames : List PyStr
  published : Option Nat
  updated : Option Nat
  title : PyStr
  tags : List PyStr
  links : List (PyStr × PyStr)
  idStr : PyStr
  summary : PyStr
  doi : PyStr
  primaryCategory : PyStr
  journalRef : PyStr
deriving DecidableEq, Repr

/-- `entry.get('id','').split('/')[-1]`. -/
def lastSlashComponent (s : PyStr) : PyStr :=
  (splitOnSep ['/'] s).getLastD []

/-- `application/pdf`. -/
def pdfMime : PyStr :=
  ['a','p','p','l','i','c','a','t','i','o','n','/','p','d','f']

/-- The body of `_parse_entry`, with Python exceptions surfaced as
`Except.error` and validation rejections as `Except.ok none`.  The inner
`try/except (ValueError, TypeError)` around the two `strptime` calls is the
`Option` match on the pre-modelled date fields. -/
def parseEntryCoreA (e : RawEntry) : Except Unit (Option Paper) :=
  if e.raises then Except.error () else
  let authors := e.authorsNames.map pyStrip
  if authors.isEmpty then Except.ok none else
  match e.published, e.updated with
  | some published, some updated =>
    let title := pyStrip (replaceNewlines e.title)
    if title.isEmpty then Except.ok none else
    let categories := e.tags.map pyStrip
    let pdf_url := ((e.links.find? (fun l => l.1 = pdfMime)).map Prod.snd).getD []
    Except.ok (some
      { paper_id := lastSlashComponent e.idStr
        title := title
        authors := authors
        abstract := pyStrip (replaceNewlines e.summary)
        url := e.idStr
        pdf_url := pdf_url
        published_date := some published
        updated_date := some updated
        source := ['a','r','x','i','v']
        categories := categories
        keywords := []
        doi := e.doi
        extra := [(['p','r','i','m','a','r','y'], e.primaryCategory),
                  (['j','o','u','r','n','a','l'], e.journalRef)] })
  | _, _ => Except.ok none

/-- `_parse_entry`: the outer `try/except Exception: return None` wrapper. -/
def parseEntryA (e : RawEntry) : Option Paper :=
  match parseEntryCoreA e with
  | Except.ok r => r
  | Except.error _ => none

/-! ## Scholar entry parser (`_parse_paper_details`, google_scholar.py 185-227)

The `google_scholar` module never imports `re`, so every evaluation of
`re.search(...)` in `_parse_paper_details` raises `NameError`. -/

/-- The `.gs_rt a` anchor element: its text and its optional `href` attribute
(`tag['href']` raises `KeyError` when the attribute is absent). -/
structure RawLink where
  text : PyStr
  href : Option PyStr
deriving DecidableEq, Repr

/-- A `.gs_r.gs_or.gs_scl` result div, by the CSS selectors the code uses. -/
structure RawDiv where
  gsRtA : Option RawLink
  gsA : Option PyStr
  gsFl : Option PyStr
  gsRs : Option PyStr
deriving DecidableEq, Repr

/-- The dict returned by `_parse_paper_details` on success. -/
structure ScholarRecord where
  title : PyStr
  url : Option PyStr
  authors : PyStr
  year : Option Nat
  citations : Nat
  abstract : PyStr
deriving DecidableEq, Repr

inductive PyError where
  | nameError
  | keyError
deriving DecidableEq, Repr

def noTitleStr : PyStr := ['N','o',' ','t','i','t','l','e']

def noAbstractStr : PyStr := ['N','o',' ','a','b','s','t','r','a','c','t']

/-- The body of `_parse_paper_details` with exceptions surfaced.  The year and
citation branches call `re.search`, and `re` is unbound in the module, so
reaching either call raises `NameError`. -/
def parsePaperDetailsCore (d : RawDiv) : Except PyError ScholarRecord :=
  let title := match d.gsRtA with
    | some l => l.text
    | none => noTitleStr
  match (match d.gsRtA with
         | some l => match l.href with
           | some h => Except.ok (some h)
           | none => Except.error PyError.keyError
         | none => Except.ok (none : Option PyStr)) with
  | Except.error err => Except.error err
  | Except.ok url =>
    let authorText := match d.gsA with
      | some t => t
      | none => []
    if authorText.isEmpty then
      match d.gsFl with
      | some _ => Except.error PyError.nameError
      | none =>
        let abstract := match d.gsRs with
          | some t => t
          | none => noAbstractStr
        Except.ok { title := title, url := url, authors := authorText,
                    year := none, citations := 0, abstract := abstract }
    else Except.error PyError.nameError

/-- `_parse_paper_details`: the `try/except Exception: return None` wrapper. -/
def parsePaperDetails (d : RawDiv) : Option ScholarRecord :=
  match parsePaperDetailsCore d with
  | Except.ok r => some r
  | Except.error _ => none

/-! ## Paginated search engine (`search` / `_search_segment` / `_fetch_batch`,
arxiv.py lines 123-263)

A segment's HTTP interaction is abstracted as an oracle from
`(start index, requested batch size)` to the raw feed entries of the response,
with `none` modelling `_fetch_batch` re-raising after exhausting its retries.
`_fetch_batch` then maps `_parse_entry` over the entries and drops `None`s. -/

abbrev SegOracle := Nat → Nat → Option (List RawEntry)

/-- `_fetch_batch` on a successful response: parse each entry, drop `None`s. -/
def fetchBatchParse (entries : List RawEntry) : List Paper :=
  entries.filterMap parseEntryA

/-- The `while len(results) < self.max_results` loop of `_search_segment`,
instrumented with the list of `(start index, requested size)` fetch requests
it issues.  A `none` oracle answer is the exception caught by
`except Exception: break`.  The loop grows `results` by at least one element
whenever it continues, so fuel `maxResults + 1` (supplied by
`searchSegmentRun`) is never exhausted. -/
def segmentLoop (f : SegOracle) (batchSize maxResults : Nat) :
    Nat → Nat → List Paper → List Paper × List (Nat × Nat)
  | 0, _, results => (results, [])
  | fuel + 1, startIdx, results =>
    if results.length < maxResults then
      match f startIdx (min batchSize (maxResults - results.length)) with
      | none => (results, [(startIdx, min batchSize (maxResults - results.length))])
      | some entries =>
        if (fetchBatchParse entries).isEmpty then
          (results, [(startIdx, min batchSize (maxResults - results.length))])
        else if (fetchBatchParse entries).length <
            min batchSize (maxResults - results.length) then
          (results ++ fetchBatchParse entries,
           [(startIdx, min batchSize (maxResults - results.length))])
        else
          ((segmentLoop f batchSize maxResults fuel
              (startIdx + (fetchBatchParse entries).length)
              (results ++ fetchBatchParse entries)).1,
           (startIdx, min batchSize (maxResults - results.length)) ::
             (segmentLoop f batchSize maxResults fuel
               (startIdx + (fetchBatchParse entries).length)
               (results ++ fetchBatchParse entries)).2)
    else (results, [])

/-- `_search_segment`: run the loop from offset 0 with an empty accumulator. -/
def searchSegmentRun (f : SegOracle) (batchSize maxResults : Nat) :
    List Paper × List (Nat × Nat) :=
  segmentLoop f batchSize maxResults (maxResults + 1) 0 []

/-- A segment whose every fetch fails (retries exhausted on each batch). -/
def failSeg : SegOracle := fun _ _ => none

/-- The `for date_start, date_end in date_ranges` loop of `search`: each
segment contributes its results; the loop stops early once the accumulated
count reaches `max_results`.  The log tags each fetch request with its segment
index. -/
def searchLoop (batchSize maxResults : Nat) :
    Nat → List SegOracle → List Paper → List Paper × List (Nat × Nat × Nat)
  | _, [], acc => (acc, [])
  | segIdx, f :: rest, acc =>
    if maxResults ≤ (acc ++ (searchSegmentRun f batchSize maxResults).1).length then
      (acc ++ (searchSegmentRun f batchSize maxResults).1,
       (searchSegmentRun f batchSize maxResults).2.map (fun e => (segIdx, e.1, e.2)))
    else
      ((searchLoop batchSize maxResults (segIdx + 1) rest
          (acc ++ (searchSegmentRun f batchSize maxResults).1)).1,
       (searchSegmentRun f batchSize maxResults).2.map (fun e => (segIdx, e.1, e.2)) ++
         (searchLoop batchSize maxResults (segIdx + 1) rest
           (acc ++ (searchSegmentRun f batchSize maxResults).1)).2)

/-- The merged record list accumulated by `search` before sorting. -/
def collectedRecords (segs : List SegOracle) (batchSize maxResults : Nat) :
    List Paper :=
  (searchLoop batchSize maxResults 0 segs []).1

/-- The `[r for r in all_results if r is not None and r.published_date is not
None]` filter (the `is not None` on the record itself is vacuous here because
segment results already hold `Paper` values). -/
def validRecords (segs : List SegOracle) (batchSize maxResults : Nat) :
    List Paper :=
  (collectedRecords segs batchSize maxResults).filter
    (fun p => p.published_date.isSome)

/-- Sort key `lambda x: x.published_date`; defined (as 0) on a `none` date,
but only applied after the `is not None` filter. -/
def pubKey (p : Paper) : Nat := p.published_date.getD 0

/-- One step of a stable descending insertion sort on `pubKey`: the element
being inserted precedes every element whose key is `≤` its own.  This is
extensionally Python's stable `sorted(..., key=..., reverse=True)`. -/
def insertDesc (p : Paper) : List Paper → List Paper
  | [] => [p]
  | q :: qs => if pubKey p < pubKey q then q :: insertDesc p qs else p :: q :: qs

/-- Stable sort by `published_date` descending
(`sorted(valid_results, key=lambda x: x.published_date, reverse=True)`). -/
def sortDesc : List Paper → List Paper
  | [] => []
  | p :: ps => insertDesc p (sortDesc ps)

/-- `ArxivSearcher.search`, abstracted over the per-segment fetch oracles,
returning the result list and the log of every fetch request issued
(`segment index, start index, requested size`). -/
def search (segs : List SegOracle) (batchSize maxResults : Nat) :
    List Paper × List (Nat × Nat × Nat) :=
  ((sortDesc (validRecords segs batchSize maxResults)).take maxResults,
   (searchLoop batchSize maxResults 0 segs []).2)

/-- The number of parsed records contributed by replaying one logged fetch
request of a segment against its oracle. -/
def respLen (f : SegOracle) (e : Nat × Nat) : Nat :=
  match f e.1 e.2 with
  | none => 0
  | some entries => (fetchBatchParse entries).length

/-- The same replay for the global search log (segment-indexed entries). -/
def respLenG (segs : List SegOracle) (e : Nat × Nat × Nat) : Nat :=
  respLen (segs.getD e.1 failSeg) (e.2.1, e.2.2)

/-! ## Query segmentation planner (`_split_date_range`, arxiv.py lines 101-121)

Dates are modelled by their day numbers (`Int`), with `strptime`/`strftime`
the identity on the day number.  Python `//` is floor division, which on an
`Int` numerator and positive denominator is Lean's `Int` division (`ediv`). -/

/-- `_split_date_range` on already-parsed dates: `timedelta` arithmetic on day
numbers. -/
def splitDateRange (start finish : Int) (segments : Nat) : List (Int × Int) :=
  let totalDays : Int := finish - start
  let segmentDays : Int := totalDays / (segments : Int)
  (List.range segments).map (fun (i : Nat) =>
    (start + (i : Int) * segmentDays,
     if i = segments - 1 then finish
     else start + ((i : Int) + 1) * segmentDays - 1))

/-! ## Date parsing (`datetime.strptime(s, '%Y-%m-%d')`) -/

def isLeapYear (y : Nat) : Bool :=
  y % 4 = 0 && (y % 100 ≠ 0 || y % 400 = 0)

def daysInMonth (y m : Nat) : Nat :=
  if m = 2 then (if isLeapYear y then 29 else 28)
  else if m = 4 || m = 6 || m = 9 || m = 11 then 30
  else 31

def allDigits (s : PyStr) : Bool := s.all Char.isDigit

def digitsToNat (s : PyStr) : Nat :=
  s.foldl (fun acc c => acc * 10 + (c.toNat - 48)) 0

/-- `datetime.strptime(s, '%Y-%m-%d')`: a 4-digit year, 1-2 digit month and
day separated by `-`, the whole string consumed, and the calendar validity
checks performed by the `datetime` constructor. -/
def parseDate (s : PyStr) : Option (Nat × Nat × Nat) :=
  match splitOnSep ['-'] s with
  | [ys, ms, ds] =>
    if ys.length = 4 && allDigits ys &&
       (ms.length = 1 || ms.length = 2) && allDigits ms &&
       (ds.length = 1 || ds.length = 2) && allDigits ds then
      let y := digitsToNat ys
      let m := digitsToNat ms
      let d := digitsToNat ds
      if 1 ≤ y && 1 ≤ m && m ≤ 12 && 1 ≤ d && d ≤ daysInMonth y m then
        some (y, m, d)
      else none
    else none
  | _ => none

/-- Day number of a calendar date (days since 0000-03-01, standard
civil-from-days arithmetic); used only to connect the string interface of
`_split_date_range` to its day-number core. -/
def dayNumber (ymd : Nat × Nat × Nat) : Int :=
  let y : Int := if ymd.2.1 ≤ 2 then (ymd.1 : Int) - 1 else (ymd.1 : Int)
  let m : Int := ymd.2.1
  let d : Int := ymd.2.2
  let era : Int := y / 400
  let yoe : Int := y - era * 400
  let mp : Int := (m + 9) % 12
  let doy : Int := (153 * mp + 2) / 5 + d - 1
  let doe : Int := yoe * 365 + yoe / 4 - yoe / 100 + doy
  era * 146097 + doe

/-! ## Configuration errors (spec taxonomy for the `ValueError`s raised on
invalid caller input) -/

inductive ConfigurationError where
  | badDateFormat
  | unsupportedSortKey
  | unsupportedExportFormat
deriving DecidableEq, Repr

/-- `_split_date_range` at the string interface: `strptime` both bounds
(raising on a bad format) and split on day numbers. -/
def splitDateRangeChecked (startStr endStr : PyStr) (segments : Nat) :
    Except ConfigurationError (List (Int × Int)) :=
  match parseDate startStr, parseDate endStr with
  | some a, some b => Except.ok (splitDateRange (dayNumber a) (dayNumber b) segments)
  | _, _ => Except.error ConfigurationError.badDateFormat

def validSortKeys : List PyStr :=
  [['r','e','l','e','v','a','n','c','e'],
   ['l','a','s','t','U','p','d','a','t','e','d','D','a','t','e'],
   ['s','u','b','m','i','t','t','e','d','D','a','t','e']]

/-- `set_sort` (arxiv.py lines 84-90): validates the sort key, never the
order; on success the new `(sort_by, sort_order)` pair. -/
def setSort (by_ order : PyStr) : Except ConfigurationError (PyStr × PyStr) :=
  if by_ ∈ validSortKeys then Except.ok (by_, order)
  else Except.error ConfigurationError.unsupportedSortKey

/-- The written artifact of `save_papers`, by export format. -/
inductive ExportData where
  | csv (rows : List PaperRow)
  | json (rows : List PaperRow)
  | excel (rows : List PaperRow)
deriving DecidableEq, Repr

def csvStr : PyStr := ['c','s','v']

def jsonStr : PyStr := ['j','s','o','n']

def excelStr : PyStr := ['e','x','c','e','l']

/-- `save_papers` (arxiv.py lines 317-339): convert the records via
`to_dict`, then dispatch on `format.lower()`; an unknown format raises. -/
def savePapers (papers : List Paper) (format : PyStr) :
    Except ConfigurationError ExportData :=
  let data := papers.map toDict
  if pyLower format = csvStr then Except.ok (ExportData.csv data)
  else if pyLower format = jsonStr then Except.ok (ExportData.json data)
  else if pyLower format = excelStr then Except.ok (ExportData.excel data)
  else Except.error ConfigurationError.unsupportedExportFormat

/-! ## Scholar persistence sink (`_save_batch`, google_scholar.py 277-292)

`_save_batch` recomputes `scholar_results_{timestamp}.csv` from the current
wall clock on every call; the filesystem is a finite map from that timestamp
(the only varying filename component) to the file's lines.  `fieldnames` is
assigned only inside the `if not filepath.exists()` branch, so the append via
`csv.DictWriter(f, fieldnames=fieldnames)` raises `NameError` whenever the
file already exists. -/

inductive FileLine where
  | header
  | row (r : ScholarRecord)
deriving DecidableEq, Repr

abbrev ScholarFS := List (Nat × List FileLine)

/-- The fixed column order `title, url, authors, year, citations, abstract`
(materialised in the header line; rows carry the record itself). -/
def saveBatch (now : Nat) (fs : ScholarFS) (batch : List ScholarRecord) :
    Except PyError ScholarFS :=
  match fs.lookup now with
  | none =>
    Except.ok ((now, FileLine.header :: batch.map FileLine.row) :: fs)
  | some _ => Except.error PyError.nameError

/-- A sequence of `_save_batch` calls, each at its own wall-clock instant. -/
def saveSeq (calls : List (Nat × List ScholarRecord)) (fs : ScholarFS) :
    Except PyError ScholarFS :=
  match calls with
  | [] => Except.ok fs
  | c :: rest =>
    match saveBatch c.1 fs c.2 with
    | Except.ok fs2 => saveSeq rest fs2
    | Except.error e => Except.error e

/-- Number of header lines in a file's contents. -/
def countHeaders (lines : List FileLine) : Nat :=
  (lines.filter (fun l => match l with | FileLine.header => true | _ => false)).length

/-- `True` exactly when `sep` occurs inside `s` (used to state the round-trip
side conditions of claim C7). -/
def containsSep (sep s : PyStr) : Bool := (splitFirst sep s).isSome

/-- The scholar batch loop (`for div in result_divs: ...  if paper_details:
batch_results.append(paper_details)`, google_scholar.py 256-260): a nonempty
dict is truthy, so this is exactly a `filterMap`. -/
def scholarParseBatch (divs : List RawDiv) : List ScholarRecord :=
  divs.filterMap parsePaperDetails

/-! # Theorems -/

/-! ## General-purpose helper lemmas -/

lemma isSome_eq_false_iff {α : Type} {o : Option α} :
    o.isSome = false ↔ o = none := by
  cases o <;> simp

lemma takeIsPre {α : Type} (n : Nat) (l : List α) : l.take n <+: l :=
  ⟨l.drop n, List.take_append_drop n l⟩

lemma filterPre {α : Type} (p : α → Bool) {l₁ l₂ : List α} (h : l₁ <+: l₂) :
    l₁.filter p <+: l₂.filter p := by
  obtain ⟨t, rfl⟩ := h
  exact ⟨t.filter p, (List.filter_append l₁ t).symm⟩

/-! ## C9: zero result cap -/

/-- Claim C9: calling `search` with `overall_max_results = 0` returns the
empty list and issues no fetch request at all (for every segment layout and
batch size), because the segment loop guard `len(results) < max_results`
fails immediately and the accumulated-count check breaks out of the segment
iteration. -/
theorem searchZeroMax_noFetch (segs : List SegOracle) (batchSize : Nat) :
    search segs batchSize 0 = ([], []) := by
  cases segs <;> rfl

/-! ## C4: the entry parsers never raise -/

/-- Claim C4: neither `_parse_entry` nor `_parse_paper_details` propagates an
exception — an entry whose parsing throws internally yields `None` for that
entry only, and the batch assembly treats each entry independently, so one
malformed entry never aborts its batch. -/
theorem parserTotal_batchLocal :
    (∀ e : RawEntry, parseEntryCoreA e = Except.error () → parseEntryA e = none) ∧
    (∀ d : RawDiv, ∀ err : PyError,
      parsePaperDetailsCore d = Except.error err → parsePaperDetails d = none) ∧
    (∀ (l₁ l₂ : List RawEntry) (e : RawEntry),
      fetchBatchParse (l₁ ++ e :: l₂) =
        fetchBatchParse l₁ ++ (parseEntryA e).toList ++ fetchBatchParse l₂) ∧
    (∀ (l₁ l₂ : List RawDiv) (d : RawDiv),
      scholarParseBatch (l₁ ++ d :: l₂) =
        scholarParseBatch l₁ ++ (parsePaperDetails d).toList ++ scholarParseBatch l₂) := by
  refine ⟨?_, ?_, ?_, ?_⟩
  · intro e h
    simp [parseEntryA, h]
  · intro d err h
    simp [parsePaperDetails, h]
  · intro l₁ l₂ e
    simp only [fetchBatchParse, List.filterMap_append, List.filterMap_cons]
    cases parseEntryA e <;> simp
  · intro l₁ l₂ d
    simp only [scholarParseBatch, List.filterMap_append, List.filterMap_cons]
    cases parsePaperDetails d <;> simp

/-- An entry whose attribute accesses raise (outer `except Exception` path). -/
def raisingEntry : RawEntry :=
  { raises := true, authorsNames := [], published := none, updated := none,
    title := [], tags := [], links := [], idStr := [], summary := [],
    doi := [], primaryCategory := [], journalRef := [] }

/-- A result div with a nonempty author line: parsing it reaches the unbound
`re.search` call, which raises `NameError`. -/
def nameErrorDiv : RawDiv :=
  { gsRtA := none, gsA := some ['x'], gsFl := none, gsRs := none }

theorem parserTotal_batchLocal_witness :
    parseEntryCoreA raisingEntry = Except.error () ∧
    parsePaperDetailsCore nameErrorDiv = Except.error PyError.nameError ∧
    parseEntryA raisingEntry = none ∧
    parsePaperDetails nameErrorDiv = none :=
  ⟨rfl, rfl, parserTotal_batchLocal.1 raisingEntry rfl,
   parserTotal_batchLocal.2.1 nameErrorDiv PyError.nameError rfl⟩

/-! ## C10: the missing `re` import rejects every annotated scholar entry -/

/-- Claim C10: because `re` is never imported in `google_scholar.py`, any
result div whose `.gs_a` line is non-empty, or which contains a `.gs_fl`
element, makes `_parse_paper_details` raise `NameError` internally, which the
surrounding handler converts to `None` — such entries never yield a record. -/
theorem reUnbound_rejectsAnnotated (d : RawDiv)
    (h : (∃ s, d.gsA = some s ∧ s ≠ []) ∨ d.gsFl.isSome) :
    parsePaperDetails d = none := by
  obtain ⟨rt, ga, fl, rs⟩ := d
  simp only [parsePaperDetails, parsePaperDetailsCore]
  rcases rt with _ | ⟨t, href⟩
  · rcases ga with _ | a
    · simp only [Option.isSome] at h
      rcases h with ⟨s, hs, _⟩ | h
      · exact absurd hs (by simp)
      · cases fl
        · simp at h
        · simp
    · by_cases ha : a.isEmpty
      · rcases h with ⟨s, hs, hne⟩ | h
        · rw [show a = s by injection hs] at ha
          simp [List.isEmpty_iff] at ha
          exact absurd ha hne
        · cases fl
          · simp at h
          · simp [ha]
      · simp [ha]
  · rcases href with _ | u
    · simp
    · rcases ga with _ | a
      · rcases h with ⟨s, hs, _⟩ | h
        · exact absurd hs (by simp)
        · cases fl
          · simp at h
          · simp
      · by_cases ha : a.isEmpty
        · rcases h with ⟨s, hs, hne⟩ | h
          · rw [show a = s by injection hs] at ha
            simp [List.isEmpty_iff] at ha
            exact absurd ha hne
          · cases fl
            · simp at h
            · simp [ha]
        · simp [ha]

/-- A fully populated result div (title link with href, authors, footer). -/
def annotatedDiv : RawDiv :=
  { gsRtA := some { text := ['t'], href := some ['u'] },
    gsA := some ['a','u','t','h'], gsFl := some ['C','i','t','e','d'],
    gsRs := some ['a','b','s'] }

theorem reUnbound_rejectsAnnotated_witness :
    ((∃ s, annotatedDiv.gsA = some s ∧ s ≠ []) ∨ annotatedDiv.gsFl.isSome) ∧
    parsePaperDetails annotatedDiv = none :=
  ⟨Or.inl ⟨['a','u','t','h'], rfl, by decide⟩,
   reUnbound_rejectsAnnotated annotatedDiv
     (Or.inl ⟨['a','u','t','h'], rfl, by decide⟩)⟩

/-! ## C6: invalid caller input fails fast -/

/-- Claim C6: a date string `strptime` cannot parse makes segmentation fail
with the configuration error; an unsupported sort key makes `set_sort` fail
with the configuration error; an unsupported export format makes
`save_papers` fail with the configuration error.  Each error is returned
directly by the validating function itself — none of these paths contains a
retry loop. -/
theorem invalidInput_failsFast :
    (∀ (s e : PyStr) (n : Nat), parseDate s = none ∨ parseDate e = none →
      splitDateRangeChecked s e n = Except.error ConfigurationError.badDateFormat) ∧
    (∀ by_ order : PyStr, by_ ∉ validSortKeys →
      setSort by_ order = Except.error ConfigurationError.unsupportedSortKey) ∧
    (∀ (ps : List Paper) (fmt : PyStr),
      pyLower fmt ≠ csvStr → pyLower fmt ≠ jsonStr → pyLower fmt ≠ excelStr →
      savePapers ps fmt = Except.error ConfigurationError.unsupportedExportFormat) := by
  refine ⟨?_, ?_, ?_⟩
  · intro s e n h
    unfold splitDateRangeChecked
    rcases h with h | h
    · rw [h]
    · rw [h]
      cases parseDate s <;> rfl
  · intro by_ order h
    simp [setSort, h]
  · intro ps fmt h1 h2 h3
    simp [savePapers, h1, h2, h3]

def badDateStr : PyStr := ['2','0','2','3','-','1','3','-','0','1']

def badSortKey : PyStr := ['c','i','t','a','t','i','o','n','s']

def badFormat : PyStr := ['x','m','l']

theorem invalidInput_failsFast_witness :
    parseDate badDateStr = none ∧
    badSortKey ∉ validSortKeys ∧
    pyLower badFormat ≠ csvStr ∧
    splitDateRangeChecked badDateStr badDateStr 4 =
      Except.error ConfigurationError.badDateFormat ∧
    setSort badSortKey [] = Except.error ConfigurationError.unsupportedSortKey ∧
    savePapers [] badFormat = Except.error ConfigurationError.unsupportedExportFormat :=
  ⟨by decide, by decide, by decide,
   invalidInput_failsFast.1 badDateStr badDateStr 4 (Or.inl (by decide)),
   invalidInput_failsFast.2.1 badSortKey [] (by decide),
   invalidInput_failsFast.2.2 [] badFormat (by decide) (by decide) (by decide)⟩

/-! ## C8: the scholar batch-append sink -/

/-- A concrete parsed scholar record. -/
def recW : ScholarRecord :=
  { title := ['t'], url := none, authors := [], year := none,
    citations := 0, abstract := [] }

/-- Claim C8 is about the intent of `_save_batch`; the code diverges from it
at this failing input: two batch saves during one search, reached at distinct
wall-clock seconds, starting from an empty working directory.  The code
recomputes `scholar_results_{timestamp}.csv` from the clock on every call, so
the two batches land in two different files, each receiving its own header —
there is no single store that is appended to, and the header is written once
per batch rather than once per search.  Moreover, whenever the target file
already exists, the append path reads the local `fieldnames`, which is
assigned only inside the `if not filepath.exists()` branch, so the call
raises `NameError` instead of appending. -/
theorem saveBatch_codeBug :
    saveSeq [(1, [recW]), (2, [recW])] [] =
      Except.ok [(2, [FileLine.header, FileLine.row recW]),
                 (1, [FileLine.header, FileLine.row recW])] ∧
    countHeaders [FileLine.header, FileLine.row recW] = 1 ∧
    saveBatch 1 [(1, [FileLine.header, FileLine.row recW])] [recW] =
      Except.error PyError.nameError :=
  ⟨rfl, rfl, rfl⟩

/-! ## C2: the segmentation contract -/

/-- The `i`-th `(start, end)` pair produced by `_split_date_range`. -/
def segAt (start finish : Int) (N i : Nat) : Int × Int :=
  (splitDateRange start finish N).getD i (0, 0)

/-- `segment_days = total_days // segments`. -/
def segDays (start finish : Int) (N : Nat) : Int :=
  (finish - start) / (N : Int)

lemma splitDateRange_length (start finish : Int) (N : Nat) :
    (splitDateRange start finish N).length = N := by
  simp [splitDateRange]

lemma segAt_eq {start finish : Int} {N i : Nat} (h : i < N) :
    segAt start finish N i =
      (start + (i : Int) * segDays start finish N,
       if i = N - 1 then finish
       else start + ((i : Int) + 1) * segDays start finish N - 1) := by
  unfold segAt splitDateRange segDays
  rw [List.getD_eq_getElem _ _ (by simpa using h)]
  rw [List.getElem_map, List.getElem_range]

lemma segDays_nonneg {start finish : Int} {N : Nat} (hle : start ≤ finish) :
    0 ≤ segDays start finish N :=
  Int.ediv_nonneg (by omega) (by positivity)

lemma segDays_mul_le {start finish : Int} {N : Nat} (hN : 1 ≤ N) :
    (N : Int) * segDays start finish N ≤ finish - start := by
  have hNpos : (0 : Int) < (N : Int) := by exact_mod_cast hN
  have h := Int.ediv_add_emod (finish - start) (N : Int)
  have hr := Int.emod_nonneg (finish - start) (ne_of_gt hNpos)
  unfold segDays
  omega

/-- Claim C2: for valid inputs (`start ≤ finish`, at least one segment),
`_split_date_range` returns exactly `N` pairs whose first start is the start
date, whose last end is exactly the end date, which are day-contiguous
(each pair starts the day after the previous pair ends), have
monotonically ordered starts, cover every day of the range, and are pairwise
disjoint as day intervals. -/
theorem splitSegments_contract (start finish : Int) (N : Nat)
    (hN : 1 ≤ N) (hle : start ≤ finish) :
    (splitDateRange start finish N).length = N ∧
    (segAt start finish N 0).1 = start ∧
    (segAt start finish N (N - 1)).2 = finish ∧
    (∀ i, i + 1 < N →
      (segAt start finish N (i + 1)).1 = (segAt start finish N i).2 + 1) ∧
    (∀ i j, i ≤ j → j < N →
      (segAt start finish N i).1 ≤ (segAt start finish N j).1) ∧
    (∀ x : Int, start ≤ x → x ≤ finish →
      ∃ i, i < N ∧ (segAt start finish N i).1 ≤ x ∧ x ≤ (segAt start finish N i).2) ∧
    (∀ i j, ∀ x : Int, i < j → j < N →
      (segAt start finish N i).1 ≤ x → x ≤ (segAt start finish N i).2 →
      ¬((segAt start finish N j).1 ≤ x ∧ x ≤ (segAt start finish N j).2)) := by
  have hd0 : 0 ≤ segDays start finish N := segDays_nonneg hle
  have hNd : (N : Int) * segDays start finish N ≤ finish - start := segDays_mul_le hN
  refine ⟨splitDateRange_length start finish N, ?_, ?_, ?_, ?_, ?_, ?_⟩
  · rw [segAt_eq (by omega : 0 < N)]
    simp
  · rw [segAt_eq (by omega : N - 1 < N)]
    simp
  · intro i hi
    rw [segAt_eq (by omega : i + 1 < N), segAt_eq (by omega : i < N)]
    rw [if_neg (by omega : ¬ i = N - 1)]
    push_cast
    ring
  · intro i j hij hj
    rw [segAt_eq (by omega : i < N), segAt_eq hj]
    have : (i : Int) * segDays start finish N ≤ (j : Int) * segDays start finish N :=
      mul_le_mul_of_nonneg_right (by exact_mod_cast hij) hd0
    simpa using this
  · intro x hx1 hx2
    by_cases hcase : start + ((N : Int) - 1) * segDays start finish N ≤ x
    · refine ⟨N - 1, by omega, ?_, ?_⟩ <;> rw [segAt_eq (by omega : N - 1 < N)]
      · have hcast : ((N - 1 : Nat) : Int) = (N : Int) - 1 := by
          push_cast [Nat.cast_sub hN]
          ring
        simpa [hcast] using hcase
      · simpa using hx2
    · push_neg at hcase
      have hdpos : 0 < segDays start finish N := by
        rcases lt_or_eq_of_le hd0 with h | h
        · exact h
        · exfalso
          rw [← h] at hcase
          simp at hcase
          omega
      have ht0 : 0 ≤ x - start := by omega
      have hq0 : 0 ≤ (x - start) / segDays start finish N :=
        Int.ediv_nonneg ht0 (le_of_lt hdpos)
      have hqlt : (x - start) / segDays start finish N < (N : Int) - 1 := by
        rw [Int.ediv_lt_iff_lt_mul hdpos]
        linarith
      have hiq : ((((x - start) / segDays start finish N).toNat : Nat) : Int) =
          (x - start) / segDays start finish N := Int.toNat_of_nonneg hq0
      have hiN1 : ((x - start) / segDays start finish N).toNat < N - 1 := by
        have : ((((x - start) / segDays start finish N).toNat : Nat) : Int) <
            ((N - 1 : Nat) : Int) := by
          rw [hiq]
          push_cast [Nat.cast_sub hN]
          linarith
        exact_mod_cast this
      refine ⟨((x - start) / segDays start finish N).toNat, by omega, ?_, ?_⟩ <;>
        rw [segAt_eq (by omega : ((x - start) / segDays start finish N).toNat < N)]
      · have hml := Int.ediv_mul_le (x - start) (ne_of_gt hdpos)
        rw [hiq]
        simp only []
        linarith
      · rw [if_neg (by omega : ¬ ((x - start) / segDays start finish N).toNat = N - 1)]
        have hub := Int.lt_ediv_add_one_mul_self (x - start) hdpos
        rw [hiq]
        simp only []
        linarith
  · intro i j x hij hj hxi1 hxi2 hxj
    obtain ⟨hxj1, _⟩ := hxj
    rw [segAt_eq (by omega : i < N)] at hxi2
    rw [if_neg (by omega : ¬ i = N - 1)] at hxi2
    rw [segAt_eq hj] at hxj1
    have hmono : ((i : Int) + 1) * segDays start finish N ≤
        (j : Int) * segDays start finish N := by
      refine mul_le_mul_of_nonneg_right ?_ hd0
      have : (i : Int) + 1 ≤ (j : Int) := by exact_mod_cast hij
      linarith
    simp only [] at hxi2 hxj1
    linarith

theorem splitSegments_contract_witness :
    (1 ≤ 4) ∧ ((0 : Int) ≤ 364) ∧
    ((splitDateRange 0 364 4).length = 4 ∧
     (segAt 0 364 4 0).1 = 0 ∧
     (segAt 0 364 4 (4 - 1)).2 = 364 ∧
     (∀ i, i + 1 < 4 → (segAt 0 364 4 (i + 1)).1 = (segAt 0 364 4 i).2 + 1) ∧
     (∀ i j, i ≤ j → j < 4 → (segAt 0 364 4 i).1 ≤ (segAt 0 364 4 j).1) ∧
     (∀ x : Int, 0 ≤ x → x ≤ 364 →
       ∃ i, i < 4 ∧ (segAt 0 364 4 i).1 ≤ x ∧ x ≤ (segAt 0 364 4 i).2) ∧
     (∀ i j, ∀ x : Int, i < j → j < 4 →
       (segAt 0 364 4 i).1 ≤ x → x ≤ (segAt 0 364 4 i).2 →
       ¬((segAt 0 364 4 j).1 ≤ x ∧ x ≤ (segAt 0 364 4 j).2))) :=
  ⟨by decide, by decide, splitSegments_contract 0 364 4 (by decide) (by decide)⟩

/-! ## C1: the final result list -/

lemma length_insertDesc (p : Paper) (l : List Paper) :
    (insertDesc p l).length = l.length + 1 := by
  induction l with
  | nil => rfl
  | cons q qs ih =>
    simp only [insertDesc]
    split
    · simp [ih]
    · rfl

lemma length_sortDesc (l : List Paper) : (sortDesc l).length = l.length := by
  induction l with
  | nil => rfl
  | cons p ps ih => simp [sortDesc, length_insertDesc, ih]

lemma mem_insertDesc {x p : Paper} {l : List Paper} :
    x ∈ insertDesc p l ↔ x = p ∨ x ∈ l := by
  induction l with
  | nil => simp [insertDesc]
  | cons q qs ih =>
    simp only [insertDesc]
    split
    · simp only [List.mem_cons, ih]
      tauto
    · simp only [List.mem_cons]

lemma mem_sortDesc {x : Paper} {l : List Paper} : x ∈ sortDesc l ↔ x ∈ l := by
  induction l with
  | nil => simp [sortDesc]
  | cons p ps ih => simp [sortDesc, mem_insertDesc, ih]

lemma pairwise_insertDesc (p : Paper) {l : List Paper}
    (h : l.Pairwise (fun a b => pubKey b ≤ pubKey a)) :
    (insertDesc p l).Pairwise (fun a b => pubKey b ≤ pubKey a) := by
  induction l with
  | nil => simp [insertDesc]
  | cons q qs ih =>
    rw [List.pairwise_cons] at h
    obtain ⟨hq, hqs⟩ := h
    simp only [insertDesc]
    split
    case isTrue hlt =>
      rw [List.pairwise_cons]
      refine ⟨?_, ih hqs⟩
      intro x hx
      rcases mem_insertDesc.mp hx with rfl | hx
      · exact le_of_lt hlt
      · exact hq x hx
    case isFalse hge =>
      rw [List.pairwise_cons]
      refine ⟨?_, List.pairwise_cons.mpr ⟨hq, hqs⟩⟩
      intro x hx
      rcases List.mem_cons.mp hx with rfl | hx
      · exact le_of_not_lt hge
      · exact le_trans (hq x hx) (le_of_not_lt hge)

lemma sorted_sortDesc (l : List Paper) :
    (sortDesc l).Pairwise (fun a b => pubKey b ≤ pubKey a) := by
  induction l with
  | nil => simp [sortDesc]
  | cons p ps ih => exact pairwise_insertDesc p ih

lemma filter_insertDesc (d : Nat) (p : Paper) (l : List Paper) :
    (insertDesc p l).filter (fun q => decide (pubKey q = d)) =
      (p :: l).filter (fun q => decide (pubKey q = d)) := by
  induction l with
  | nil => rfl
  | cons a l ih =>
    simp only [insertDesc]
    split
    case isTrue hlt =>
      by_cases hA : pubKey a = d <;> by_cases hP : pubKey p = d
      · exfalso
        rw [hA, hP] at hlt
        exact lt_irrefl d hlt
      · simp [List.filter_cons, hA, hP, ih]
      · simp [List.filter_cons, hA, hP, ih]
      · simp [List.filter_cons, hA, hP, ih]
    case isFalse hge => rfl

lemma filter_sortDesc (d : Nat) (l : List Paper) :
    (sortDesc l).filter (fun q => decide (pubKey q = d)) =
      l.filter (fun q => decide (pubKey q = d)) := by
  induction l with
  | nil => rfl
  | cons p ps ih =>
    rw [show sortDesc (p :: ps) = insertDesc p (sortDesc ps) from rfl]
    rw [filter_insertDesc]
    simp [List.filter_cons, ih]

lemma validRecords_isSome (segs : List SegOracle) (batchSize maxResults : Nat) :
    ∀ p ∈ validRecords segs batchSize maxResults, p.published_date.isSome := by
  intro p hp
  simp only [validRecords] at hp
  exact (List.mem_filter.mp hp).2

lemma dateFilter_congr (d : Nat) {l : List Paper}
    (h : ∀ p ∈ l, p.published_date.isSome) :
    l.filter (fun p => decide (p.published_date = some d)) =
      l.filter (fun p => decide (pubKey p = d)) := by
  refine List.filter_congr ?_
  intro p hp
  obtain ⟨v, hv⟩ := Option.isSome_iff_exists.mp (h p hp)
  simp [pubKey, hv, decide_eq_decide]

/-- Claim C1: the list returned by `search` has length exactly
`min(overall_max_results, number of valid records collected)`, is sorted by
`published_date` descending, contains only dated records, and keeps records
of equal `published_date` in their source-stable accumulation order: for
every date, the result's records carrying that date are an initial run of the
valid records carrying that date, in the same order. -/
theorem searchResult_contract (segs : List SegOracle) (batchSize maxResults : Nat) :
    (search segs batchSize maxResults).1.length =
      min maxResults (validRecords segs batchSize maxResults).length ∧
    (search segs batchSize maxResults).1.Pairwise (fun a b => pubKey b ≤ pubKey a) ∧
    (∀ p ∈ (search segs batchSize maxResults).1, p.published_date.isSome) ∧
    (∀ d : Nat,
      (search segs batchSize maxResults).1.filter
          (fun p => decide (p.published_date = some d)) <+:
        (validRecords segs batchSize maxResults).filter
          (fun p => decide (p.published_date = some d))) := by
  have hres : (search segs batchSize maxResults).1 =
      (sortDesc (validRecords segs batchSize maxResults)).take maxResults := rfl
  have hmem : ∀ p ∈ (search segs batchSize maxResults).1, p.published_date.isSome := by
    intro p hp
    rw [hres] at hp
    have hp2 : p ∈ sortDesc (validRecords segs batchSize maxResults) :=
      (List.take_sublist _ _).subset hp
    exact validRecords_isSome segs batchSize maxResults p (mem_sortDesc.mp hp2)
  refine ⟨?_, ?_, hmem, ?_⟩
  · rw [hres, List.length_take, length_sortDesc]
  · rw [hres]
    exact List.Pairwise.sublist (List.take_sublist _ _) (sorted_sortDesc _)
  · intro d
    rw [dateFilter_congr d hmem,
        dateFilter_congr d (validRecords_isSome segs batchSize maxResults), hres]
    have h1 : ((sortDesc (validRecords segs batchSize maxResults)).take
          maxResults).filter (fun q => decide (pubKey q = d)) <+:
        (sortDesc (validRecords segs batchSize maxResults)).filter
          (fun q => decide (pubKey q = d)) :=
      filterPre _ (takeIsPre _ _)
    rwa [filter_sortDesc] at h1

/-! ## C3: requested batch sizes -/

lemma segmentLoop_log (f : SegOracle) (b m : Nat) :
    ∀ (fuel startIdx : Nat) (results : List Paper) (k : Nat),
      k < (segmentLoop f b m fuel startIdx results).2.length →
      ((segmentLoop f b m fuel startIdx results).2.getD k (0, 0)).2 =
        min b (m - (results.length +
          (((segmentLoop f b m fuel startIdx results).2.take k).map
            (respLen f)).sum)) := by
  intro fuel
  induction fuel with
  | zero =>
    intro startIdx results k hk
    simp [segmentLoop] at hk
  | succ fuel ih =>
    intro startIdx results k hk
    by_cases hlt : results.length < m
    · rcases hf : f startIdx (min b (m - results.length)) with _ | entries
      · simp only [segmentLoop, if_pos hlt, hf] at hk ⊢
        have hk0 : k = 0 := by simpa using hk
        subst hk0
        simp
      · by_cases hbe : (fetchBatchParse entries).isEmpty
        · simp only [segmentLoop, if_pos hlt, hf, if_pos hbe] at hk ⊢
          have hk0 : k = 0 := by simpa using hk
          subst hk0
          simp
        · by_cases hshort :
              (fetchBatchParse entries).length < min b (m - results.length)
          · simp only [segmentLoop, if_pos hlt, hf, if_neg hbe, if_pos hshort]
              at hk ⊢
            have hk0 : k = 0 := by simpa using hk
            subst hk0
            simp
          · simp only [segmentLoop, if_pos hlt, hf, if_neg hbe, if_neg hshort]
              at hk ⊢
            cases k with
            | zero => simp
            | succ k =>
              simp only [List.getD_cons_succ, List.take_succ_cons, List.map_cons,
                List.sum_cons, List.length_cons] at hk ⊢
              have hk2 : k < (segmentLoop f b m fuel
                  (startIdx + (fetchBatchParse entries).length)
                  (results ++ fetchBatchParse entries)).2.length := by omega
              have hrl : respLen f (startIdx, min b (m - results.length)) =
                  (fetchBatchParse entries).length := by
                simp [respLen, hf]
              rw [hrl]
              have := ih (startIdx + (fetchBatchParse entries).length)
                (results ++ fetchBatchParse entries) k hk2
              rw [this]
              have harg : m - ((results ++ fetchBatchParse entries).length +
                  (((segmentLoop f b m fuel
                      (startIdx + (fetchBatchParse entries).length)
                      (results ++ fetchBatchParse entries)).2.take k).map
                    (respLen f)).sum) =
                  m - (results.length + ((fetchBatchParse entries).length +
                  (((segmentLoop f b m fuel
                      (startIdx + (fetchBatchParse entries).length)
                      (results ++ fetchBatchParse entries)).2.take k).map
                    (respLen f)).sum)) := by
                rw [List.length_append]
                omega
              rw [harg]
    · simp only [segmentLoop, if_neg hlt] at hk
      simp at hk

/-- Claim C3 (amended): within `_search_segment`, each requested batch size
equals `min(configured_batch_size, overall_max_results - collected_so_far)`
where `collected_so_far` counts only the records accumulated *within the
current segment* (the count is reset for each segment, not global):
replaying the oracle over the previous requests of the same segment's log
reproduces the next requested size. -/
theorem requestedBatchSize_segmentLocal (f : SegOracle) (b m k : Nat)
    (hk : k < (searchSegmentRun f b m).2.length) :
    ((searchSegmentRun f b m).2.getD k (0, 0)).2 =
      min b (m - (((searchSegmentRun f b m).2.take k).map (respLen f)).sum) := by
  have h := segmentLoop_log f b m (m + 1) 0 [] k
    (by simpa [searchSegmentRun] using hk)
  simpa [searchSegmentRun] using h

/-- A raw entry that parses successfully. -/
def goodEntry : RawEntry :=
  { raises := false, authorsNames := [['A']], published := some 1,
    updated := some 1, title := ['T'], tags := [], links := [], idStr := [],
    summary := [], doi := [], primaryCategory := [], journalRef := [] }

/-- First segment: 20 records at offset 0, then 5 more at offset 20. -/
def firstSegOracle : SegOracle := fun startIdx _ =>
  if startIdx = 0 then some (List.replicate 20 goodEntry)
  else if startIdx = 20 then some (List.replicate 5 goodEntry)
  else some []

/-- Second segment: no results. -/
def secondSegOracle : SegOracle := fun _ _ => some []

/-- Claim C3 as stated is false: with `batch_size = 20`, `max_results = 30`,
a first segment yielding 25 records and a second segment, the third fetch
request (the second segment's first batch) asks for 20 records although 25
records were already accumulated across the search, so the claimed size
`min(20, 30 - 25) = 5` differs from the actual requested size 20. -/
theorem requestedBatchSize_counterexample :
    (search [firstSegOracle, secondSegOracle] 20 30).2 =
      [(0, 0, 20), (0, 20, 10), (1, 0, 20)] ∧
    (((search [firstSegOracle, secondSegOracle] 20 30).2.take 2).map
        (respLenG [firstSegOracle, secondSegOracle])).sum = 25 ∧
    ((search [firstSegOracle, secondSegOracle] 20 30).2.getD 2 (0, 0, 0)).2.2 = 20 ∧
    (20 : Nat) ≠ min 20 (30 - 25) :=
  ⟨by decide, by decide, by decide, by decide⟩

theorem requestedBatchSize_segmentLocal_witness :
    1 < (searchSegmentRun firstSegOracle 20 30).2.length ∧
    ((searchSegmentRun firstSegOracle 20 30).2.getD 1 (0, 0)).2 =
      min 20 (30 - (((searchSegmentRun firstSegOracle 20 30).2.take 1).map
        (respLen firstSegOracle)).sum) :=
  ⟨by decide, requestedBatchSize_segmentLocal firstSegOracle 20 30 1 (by decide)⟩

/-! ## C5: graceful degradation on fetch failure -/

lemma searchLoop_fst_idx (b m : Nat) :
    ∀ (segs : List SegOracle) (i j : Nat) (acc : List Paper),
      (searchLoop b m i segs acc).1 = (searchLoop b m j segs acc).1 := by
  intro segs
  induction segs with
  | nil => intro i j acc; rfl
  | cons f rest ih =>
    intro i j acc
    simp only [searchLoop]
    split_ifs
    · rfl
    · exact ih (i + 1) (j + 1) _

lemma searchSegmentRun_failSeg (b m : Nat) (hm : 0 < m) :
    (searchSegmentRun failSeg b m).1 = [] := by
  obtain ⟨m', rfl⟩ : ∃ m', m = m' + 1 := ⟨m - 1, by omega⟩
  simp [searchSegmentRun, segmentLoop, failSeg, hm]

lemma searchLoop_skip_failSeg (b m : Nat) (post : List SegOracle) :
    ∀ (pre : List SegOracle) (i : Nat) (acc : List Paper), acc.length < m →
      (searchLoop b m i (pre ++ failSeg :: post) acc).1 =
        (searchLoop b m i (pre ++ post) acc).1 := by
  intro pre
  induction pre with
  | nil =>
    intro i acc hacc
    have hm : 0 < m := by omega
    simp only [List.nil_append, searchLoop, searchSegmentRun_failSeg b m hm,
      List.append_nil]
    rw [if_neg (by omega)]
    exact searchLoop_fst_idx b m post (i + 1) i acc
  | cons g pre ih =>
    intro i acc hacc
    simp only [List.cons_append, searchLoop]
    split_ifs with h
    · rfl
    · exact ih (i + 1) _ (by omega)

/-- Claim C5: a non-fatal fetch failure never aborts the search.  First
conjunct: a segment whose every fetch fails (retries exhausted) contributes
nothing, and the search returns exactly what it returns without that segment
— all valid records of the other segments are kept.  Second conjunct: inside
a segment, a fetch failure ends the segment with the results accumulated so
far (the `except ...: break` path), rather than discarding them or
propagating. -/
theorem fetchFailure_degradesGracefully :
    (∀ (pre post : List SegOracle) (b m : Nat),
      (search (pre ++ failSeg :: post) b m).1 = (search (pre ++ post) b m).1) ∧
    (∀ (f : SegOracle) (b m startIdx : Nat) (results : List Paper),
      results.length < m →
      f startIdx (min b (m - results.length)) = none →
      segmentLoop f b m (m + 1) startIdx results =
        (results, [(startIdx, min b (m - results.length))])) := by
  constructor
  · intro pre post b m
    by_cases hm : m = 0
    · subst hm
      rfl
    · have h := searchLoop_skip_failSeg b m post pre 0 []
        (by simp; omega)
      simp only [search, validRecords, collectedRecords]
      rw [h]
  · intro f b m startIdx results h1 h2
    simp [segmentLoop, h1, h2]

theorem fetchFailure_degradesGracefully_witness :
    ([] : List Paper).length < 30 ∧
    failSeg 0 (min 20 (30 - ([] : List Paper).length)) = none ∧
    segmentLoop failSeg 20 30 (30 + 1) 0 [] = ([], [(0, min 20 (30 - 0))]) :=
  ⟨by decide, rfl,
   fetchFailure_degradesGracefully.2 failSeg 20 30 0 [] (by decide) rfl⟩

/-! ## C7: tabular export round-trip -/

lemma splitFirst_eq_none_of_not_contains {sep s : PyStr}
    (h : containsSep sep s = false) : splitFirst sep s = none := by
  unfold containsSep at h
  exact isSome_eq_false_iff.mp h

lemma splitFirst_base (u : PyStr) :
    splitFirst sepSC (';' :: ' ' :: u) = some ([], u) := by
  simp [splitFirst, List.isPrefixOf, sepSC]

lemma splitFirst_append_sep (t : PyStr) :
    ∀ x : PyStr, splitFirst sepSC x = none →
      splitFirst sepSC (x ++ sepSC ++ t) = some (x, t) := by
  intro x
  induction x with
  | nil =>
    intro _
    exact splitFirst_base t
  | cons c x' ih =>
    intro h
    simp only [splitFirst] at h
    split at h
    · exact absurd h (by simp)
    case isFalse hcond =>
      rw [Option.map_eq_none'] at h
      cases x' with
      | nil =>
        show splitFirst sepSC (c :: ';' :: ' ' :: t) = some ([c], t)
        simp [splitFirst, sepSC, List.isPrefixOf]
      | cons c₂ x'' =>
        show splitFirst sepSC (c :: c₂ :: (x'' ++ sepSC ++ t)) =
          some (c :: c₂ :: x'', t)
        have hrec := ih h
        simp only [List.cons_append] at hrec
        have hstep : splitFirst sepSC (c :: c₂ :: (x'' ++ sepSC ++ t)) =
            if sepSC.isPrefixOf (c :: c₂ :: (x'' ++ sepSC ++ t)) then
              some ([], (c :: c₂ :: (x'' ++ sepSC ++ t)).drop sepSC.length)
            else (splitFirst sepSC (c₂ :: (x'' ++ sepSC ++ t))).map
              (fun p => (c :: p.1, p.2)) := rfl
        rw [hstep]
        rw [if_neg (by simpa [sepSC, List.isPrefixOf, Bool.and_true] using hcond)]
        rw [hrec]
        rfl

lemma joinSep_single (x : PyStr) : joinSep [x] = x := by
  simp [joinSep, List.intercalate]

lemma joinSep_cons₂ (x y : PyStr) (ys : List PyStr) :
    joinSep (x :: y :: ys) = x ++ sepSC ++ joinSep (y :: ys) := by
  simp [joinSep, List.intercalate, List.intersperse]

lemma splitGo_joinSep :
    ∀ (l : List PyStr) (fuel : Nat), l ≠ [] →
      (∀ s ∈ l, splitFirst sepSC s = none) →
      (joinSep l).length < fuel → splitGo sepSC fuel (joinSep l) = l := by
  intro l
  induction l with
  | nil =>
    intro fuel h
    exact absurd rfl h
  | cons x xs ih =>
    intro fuel _ hall hlen
    obtain ⟨f', rfl⟩ : ∃ f', fuel = f' + 1 := ⟨fuel - 1, by omega⟩
    cases xs with
    | nil =>
      rw [joinSep_single] at hlen ⊢
      simp only [splitGo]
      rw [hall x (by simp)]
    | cons y ys =>
      rw [joinSep_cons₂] at hlen ⊢
      simp only [splitGo]
      rw [splitFirst_append_sep _ x (hall x (by simp))]
      have hlen2 : (joinSep (y :: ys)).length < f' := by
        simp only [List.length_append, sepSC, List.length_cons,
          List.length_nil] at hlen
        omega
      show x :: splitGo sepSC f' (joinSep (y :: ys)) = x :: y :: ys
      rw [ih f' (by simp) (fun s hs => hall s (by simp [hs])) hlen2]

lemma splitOnSep_joinSep (l : List PyStr) (hne : l ≠ [])
    (hsep : ∀ s ∈ l, containsSep sepSC s = false) :
    splitOnSep sepSC (joinSep l) = l :=
  splitGo_joinSep l ((joinSep l).length + 1) hne
    (fun s hs => splitFirst_eq_none_of_not_contains (hsep s hs)) (by omega)

/-- Claim C7 (amended): exporting to the tabular format and re-reading
reproduces every scalar cell verbatim, and splitting each list-valued cell on
`'; '` reproduces the list — provided each of the four list fields is
nonempty and none of its elements contains the separator `'; '`.  (The
unamended claim fails on empty list fields, since `''.split('; ') = ['']`.) -/
theorem csvRoundTrip_amended (p : Paper)
    (hA1 : p.authors ≠ []) (hA2 : ∀ s ∈ p.authors, containsSep sepSC s = false)
    (hC1 : p.categories ≠ [])
    (hC2 : ∀ s ∈ p.categories, containsSep sepSC s = false)
    (hK1 : p.keywords ≠ [])
    (hK2 : ∀ s ∈ p.keywords, containsSep sepSC s = false)
    (hR1 : p.references ≠ [])
    (hR2 : ∀ s ∈ p.references, containsSep sepSC s = false) :
    splitOnSep sepSC (toDict p).authors = p.authors ∧
    splitOnSep sepSC (toDict p).categories = p.categories ∧
    splitOnSep sepSC (toDict p).keywords = p.keywords ∧
    splitOnSep sepSC (toDict p).references = p.references ∧
    (toDict p).paper_id = p.paper_id ∧
    (toDict p).title = p.title ∧
    (toDict p).abstract = p.abstract ∧
    (toDict p).url = p.url ∧
    (toDict p).pdf_url = p.pdf_url ∧
    (toDict p).source = p.source ∧
    (toDict p).doi = p.doi ∧
    (toDict p).citations = p.citations ∧
    (toDict p).published_date = p.published_date ∧
    (toDict p).updated_date = p.updated_date := by
  have hkw : (toDict p).keywords = joinSep p.keywords := by
    simp only [toDict]
    rw [if_neg (by simpa using hK1)]
  have hrf : (toDict p).references = joinSep p.references := by
    simp only [toDict]
    rw [if_neg (by simpa using hR1)]
  refine ⟨?_, ?_, ?_, ?_, rfl, rfl, rfl, rfl, rfl, rfl, rfl, rfl, rfl, rfl⟩
  · exact splitOnSep_joinSep p.authors hA1 hA2
  · exact splitOnSep_joinSep p.categories hC1 hC2
  · rw [hkw]
    exact splitOnSep_joinSep p.keywords hK1 hK2
  · rw [hrf]
    exact splitOnSep_joinSep p.references hR1 hR2

/-- A valid record with an empty `keywords` list (the spec's data model
allows empty keyword/category sets). -/
def paperNoKeywords : Paper :=
  { paper_id := [], title := ['t'], authors := [['a']], abstract := [],
    url := [], pdf_url := [], published_date := some 0, updated_date := some 0,
    source := [], categories := [['c']], keywords := [], doi := [],
    citations := 0, references := [], extra := [] }

/-- Claim C7 as stated is false: for a record with empty `keywords`, the
stored cell is the empty string and splitting it on `'; '` yields `['']`,
not the original empty list. -/
theorem csvRoundTrip_counterexample :
    splitOnSep sepSC (toDict paperNoKeywords).keywords ≠
      paperNoKeywords.keywords := by
  decide

/-- A record with all four list fields nonempty and separator-free. -/
def paperRound : Paper :=
  { paper_id := ['i'], title := ['t'], authors := [['a'], ['b']],
    abstract := ['s'], url := ['u'], pdf_url := ['p'],
    published_date := some 3, updated_date := some 4, source := ['x'],
    categories := [['c'], ['d']], keywords := [['k']], doi := ['o'],
    citations := 2, references := [['r']], extra := [] }

theorem csvRoundTrip_amended_witness :
    (paperRound.authors ≠ [] ∧
     (∀ s ∈ paperRound.authors, containsSep sepSC s = false) ∧
     paperRound.categories ≠ [] ∧
     (∀ s ∈ paperRound.categories, containsSep sepSC s = false) ∧
     paperRound.keywords ≠ [] ∧
     (∀ s ∈ paperRound.keywords, containsSep sepSC s = false) ∧
     paperRound.references ≠ [] ∧
     (∀ s ∈ paperRound.references, containsSep sepSC s = false)) ∧
    (splitOnSep sepSC (toDict paperRound).authors = paperRound.authors ∧
     splitOnSep sepSC (toDict paperRound).categories = paperRound.categories ∧
     splitOnSep sepSC (toDict paperRound).keywords = paperRound.keywords ∧
     splitOnSep sepSC (toDict paperRound).references = paperRound.references ∧
     (toDict paperRound).paper_id = paperRound.paper_id ∧
     (toDict paperRound).title = paperRound.title ∧
     (toDict paperRound).abstract = paperRound.abstract ∧
     (toDict paperRound).url = paperRound.url ∧
     (toDict paperRound).pdf_url = paperRound.pdf_url ∧
     (toDict paperRound).source = paperRound.source ∧
     (toDict paperRound).doi = paperRound.doi ∧
     (toDict paperRound).citations = paperRound.citations ∧
     (toDict paperRound).published_date = paperRound.published_date ∧
     (toDict paperRound).updated_date = paperRound.updated_date) :=
  ⟨⟨by decide, by decide, by decide, by decide, by decide, by decide,
    by decide, by decide⟩,
   csvRoundTrip_amended paperRound (by decide) (by decide) (by decide)
     (by decide) (by decide) (by decide) (by decide) (by decide)⟩

/-! ## Adequacy of the loop fuel

The segment loop continues only when the parsed batch is nonempty, so each
continuation grows `results` by at least one record while the guard requires
`results.length < maxResults`: any fuel above `maxResults - results.length`
yields the same outcome, so the `maxResults + 1` supplied by
`searchSegmentRun` is always sufficient. -/

lemma segmentLoop_fuel (f : SegOracle) (b m : Nat) :
    ∀ (fuel₁ fuel₂ startIdx : Nat) (results : List Paper),
      m - results.length < fuel₁ → m - results.length < fuel₂ →
      segmentLoop f b m fuel₁ startIdx results =
        segmentLoop f b m fuel₂ startIdx results := by
  intro fuel₁
  induction fuel₁ with
  | zero =>
    intro fuel₂ s r h1 h2
    omega
  | succ fuel₁ ih =>
    intro fuel₂ s r h1 h2
    obtain ⟨f₂, rfl⟩ : ∃ f₂, fuel₂ = f₂ + 1 := ⟨fuel₂ - 1, by omega⟩
    by_cases hlt : r.length < m
    · rcases hf : f s (min b (m - r.length)) with _ | entries
      · simp only [segmentLoop, if_pos hlt, hf]
      · by_cases hbe : (fetchBatchParse entries).isEmpty
        · simp only [segmentLoop, if_pos hlt, hf, if_pos hbe]
        · by_cases hshort :
              (fetchBatchParse entries).length < min b (m - r.length)
          · simp only [segmentLoop, if_pos hlt, hf, if_neg hbe, if_pos hshort]
          · simp only [segmentLoop, if_pos hlt, hf, if_neg hbe, if_neg hshort]
            have hne : fetchBatchParse entries ≠ [] := by
              simpa [List.isEmpty_iff] using hbe
            have hpos : 0 < (fetchBatchParse entries).length :=
              List.length_pos.mpr hne
            have hrec := ih f₂ (s + (fetchBatchParse entries).length)
              (r ++ fetchBatchParse entries)
              (by simp only [List.length_append]; omega)
              (by simp only [List.length_append]; omega)
            rw [hrec]
    · simp only [segmentLoop, if_neg hlt]

theorem searchResult_contract_witness :
    (search [firstSegOracle] 20 30).1.length =
      min 30 (validRecords [firstSegOracle] 20 30).length ∧
    (validRecords [firstSegOracle] 20 30).length = 25 :=
  ⟨(searchResult_contract [firstSegOracle] 20 30).1, by decide⟩
